import Mathlib

/-!
# Verification of the hydra-cli command/registry-query surface

A shallow embedding of `src/hydra-cli.js` (the single source file of the
`hydra-cli` repository).  Pure pieces of the program become Lean functions;
the asynchronous store operations (redis callbacks, promise chains) become
explicit oracle parameters: each handler takes, as an argument, the value the
underlying store callback would have been invoked with, and returns a value
describing what the handler printed / which store operations it issued.

External collaborators (the `redis` client, `fwsp-jsutils`, `moment`,
`fwsp-umf-message`, `fwsp-config`) are modelled at their call boundary, with
doc comments saying which contract is modelled.  JavaScript-specific
semantics that the source relies on (truthiness, member access on
`undefined`/`null` throwing `TypeError`, strict-mode assignment on
primitives, `String.prototype.indexOf`, `Array.prototype.forEach` on the
result of a parse, template interpolation of `undefined`) are modelled by
small `js...` helper functions.

All definitions are fuel-based or structurally recursive, so every concrete
run can be evaluated by `rfl`/`decide`.
-/

/-- A redis-level error delivered to a node-style callback (`err` argument). -/
structure RErr where
  msg : String
  deriving DecidableEq, Repr

/-- An error from `fs.readFile` (the `err` argument of its callback). -/
structure IOErr where
  msg : String
  deriving DecidableEq, Repr

/-- A JavaScript exception, as far as this program can raise one:
`TypeError` (member access on `undefined`/`null`, calling a non-function,
strict-mode assignment on a primitive) or `SyntaxError` (`JSON.parse`
failure). -/
inductive JsError where
  | typeError (msg : String)
  | syntaxError (msg : String)
  deriving DecidableEq, Repr

/-- JSON values, as produced by `JSON.parse`.  Numbers are modelled by the
integer-numeral fragment: the program under verification never inspects a
numeric value other than for record plumbing, and every claim's input uses
integer numerals only.  Object fields are kept in insertion order with
duplicate keys merged last-value-wins (exactly `JSON.parse`'s behaviour). -/
inductive Json where
  | null
  | bool (b : Bool)
  | num (n : Int)
  | str (s : String)
  | arr (elems : List Json)
  | obj (fields : List (String × Json))

/-- JSON insignificant whitespace. -/
def isJsonWs (c : Char) : Bool :=
  c = ' ' || c = '\n' || c = '\t' || c = '\r'

/-- Drop leading JSON whitespace. -/
def skipWs : List Char → List Char
  | [] => []
  | c :: cs => if isJsonWs c then skipWs cs else c :: cs

/-- Numeric value of a decimal digit character. -/
def digitVal (c : Char) : Nat := c.toNat - '0'.toNat

/-- Split a leading run of decimal digits from the rest. -/
def takeDigits : List Char → List Char × List Char
  | [] => ([], [])
  | c :: cs =>
    if c.isDigit then
      let (ds, r) := takeDigits cs
      (c :: ds, r)
    else ([], c :: cs)

/-- Decimal digits to a natural number. -/
def digitsToNat (ds : List Char) : Nat :=
  ds.foldl (fun a c => a * 10 + digitVal c) 0

/-- Numeric value of a hexadecimal digit character, if it is one. -/
def hexVal (c : Char) : Option Nat :=
  if c.isDigit then some (c.toNat - '0'.toNat)
  else if 'a' ≤ c ∧ c ≤ 'f' then some (c.toNat - 'a'.toNat + 10)
  else if 'A' ≤ c ∧ c ≤ 'F' then some (c.toNat - 'A'.toNat + 10)
  else none

/-- Body of a JSON string literal (the opening quote already consumed):
returns the decoded characters and the input after the closing quote.
Handles the JSON escapes; fuel keeps the recursion structural. -/
def pStr : Nat → List Char → Option (List Char × List Char)
  | 0, _ => none
  | _ + 1, [] => none
  | _ + 1, '"' :: rest => some ([], rest)
  | f + 1, '\\' :: e :: rest =>
    match e with
    | '"' => (pStr f rest).map (fun p => ('"' :: p.1, p.2))
    | '\\' => (pStr f rest).map (fun p => ('\\' :: p.1, p.2))
    | '/' => (pStr f rest).map (fun p => ('/' :: p.1, p.2))
    | 'n' => (pStr f rest).map (fun p => ('\n' :: p.1, p.2))
    | 't' => (pStr f rest).map (fun p => ('\t' :: p.1, p.2))
    | 'r' => (pStr f rest).map (fun p => ('\r' :: p.1, p.2))
    | 'b' => (pStr f rest).map (fun p => (Char.ofNat 8 :: p.1, p.2))
    | 'f' => (pStr f rest).map (fun p => (Char.ofNat 12 :: p.1, p.2))
    | 'u' =>
      match rest with
      | a :: b :: c :: d :: r2 =>
        match hexVal a, hexVal b, hexVal c, hexVal d with
        | some x, some y, some z, some w =>
          (pStr f r2).map (fun p => (Char.ofNat (((x * 16 + y) * 16 + z) * 16 + w) :: p.1, p.2))
        | _, _, _, _ => none
      | _ => none
    | _ => none
  | f + 1, c :: rest => (pStr f rest).map (fun p => (c :: p.1, p.2))

/-- JS object property write: overwrite the (unique) existing field in place,
or append a fresh one.  Used both for `JSON.parse`'s duplicate-key handling
(last value wins, key keeps its first position) and for property assignment. -/
def jsObjSetJ : List (String × Json) → String → Json → List (String × Json)
  | [], k, v => [(k, v)]
  | (k0, v0) :: rest, k, v =>
    if k0 = k then (k0, v) :: rest else (k0, v0) :: jsObjSetJ rest k v

mutual

/-- One JSON value: model of `JSON.parse`'s grammar on the integer-numeral
fragment (no fraction/exponent forms; see `Json`).  Returns the value and
the unconsumed input. -/
def pVal : Nat → List Char → Option (Json × List Char)
  | 0, _ => none
  | f + 1, cs =>
    match skipWs cs with
    | 'n' :: 'u' :: 'l' :: 'l' :: r => some (.null, r)
    | 't' :: 'r' :: 'u' :: 'e' :: r => some (.bool true, r)
    | 'f' :: 'a' :: 'l' :: 's' :: 'e' :: r => some (.bool false, r)
    | '"' :: r =>
      match pStr (f + 1) r with
      | some (s, r2) => some (.str (String.mk s), r2)
      | none => none
    | '[' :: r =>
      (match skipWs r with
       | ']' :: r2 => some (.arr [], r2)
       | r2 => pElems f r2 [])
    | '\x7b' :: r =>
      (match skipWs r with
       | '\x7d' :: r2 => some (.obj [], r2)
       | r2 => pFields f r2 [])
    | '-' :: r =>
      (match takeDigits r with
       | ([], _) => none
       | (ds, r2) => some (.num (-(digitsToNat ds : Int)), r2))
    | c :: r =>
      if c.isDigit then
        match takeDigits (c :: r) with
        | (ds, r2) => some (.num (digitsToNat ds), r2)
      else none
    | [] => none

/-- Array elements after the first `[` (at least one element present). -/
def pElems : Nat → List Char → List Json → Option (Json × List Char)
  | 0, _, _ => none
  | f + 1, cs, acc =>
    match pVal f cs with
    | none => none
    | some (v, rest) =>
      match skipWs rest with
      | ',' :: r2 => pElems f r2 (v :: acc)
      | ']' :: r2 => some (.arr (v :: acc).reverse, r2)
      | _ => none

/-- Object members after the first `{` (at least one member present).
Accumulates with `jsObjSetJ`, giving `JSON.parse`'s duplicate-key policy. -/
def pFields : Nat → List Char → List (String × Json) → Option (Json × List Char)
  | 0, _, _ => none
  | f + 1, cs, acc =>
    match skipWs cs with
    | '"' :: r =>
      (match pStr (f + 1) r with
       | none => none
       | some (k, r2) =>
         match skipWs r2 with
         | ':' :: r3 =>
           (match pVal f r3 with
            | none => none
            | some (v, r4) =>
              match skipWs r4 with
              | ',' :: r5 => pFields f r5 (jsObjSetJ acc (String.mk k) v)
              | '\x7d' :: r5 => some (.obj (jsObjSetJ acc (String.mk k) v), r5)
              | _ => none)
         | _ => none)
    | _ => none

end

/-- Model of the JavaScript built-in `JSON.parse` (integer-numeral fragment,
see `Json`): parse one value, require only whitespace after it; a failure is
a thrown `SyntaxError`. -/
def jsonParseJS (s : String) : Except JsError Json :=
  match pVal (s.length + 1) s.data with
  | some (j, rest) =>
    if skipWs rest = [] then .ok j
    else .error (.syntaxError "Unexpected token in JSON")
  | none => .error (.syntaxError "Unexpected token in JSON")

/-- Model of the external `fwsp-jsutils` `Utils.safeJSONParse`: `JSON.parse`
inside `try`/`catch`, returning `undefined` (`none`) when the parse throws.
`displayJSON` (src line 227-229) relies on exactly this contract: it tests
the result for falsiness to decide raw-string fallback. -/
def safeJSONParse (s : String) : Option Json :=
  match jsonParseJS s with
  | .ok j => some j
  | .error _ => none

/-- JS property read on an object's own fields (post-`JSON.parse` the keys
are unique): `undefined` (`none`) when absent. -/
def jsLookup : List (String × Json) → String → Option Json
  | [], _ => none
  | (k0, v) :: rest, k => if k0 = k then some v else jsLookup rest k

/-- JS member access `base.k` where `base` is a parse result
(`none` = `undefined`).  Access on `undefined` or `null` throws `TypeError`;
access on other primitives yields `undefined`; on objects it is a field
lookup. -/
def jsGet : Option Json → String → Except JsError (Option Json)
  | none, _ => .error (.typeError "Cannot read properties of undefined")
  | some .null, _ => .error (.typeError "Cannot read properties of null")
  | some (.obj fs), k => .ok (jsLookup fs k)
  | some _, _ => .ok none

/-- Is `pre` a prefix of `s`?  (Model of the character comparison inside
`String.prototype.indexOf`.) -/
def strPrefixAt : List Char → List Char → Bool
  | [], _ => true
  | _ :: _, [] => false
  | a :: as, b :: bs => a == b && strPrefixAt as bs

/-- First index at or after `i` where `sub` occurs in `s`. -/
def idxAux (sub : List Char) : List Char → Nat → Option Nat
  | [], i => if strPrefixAt sub [] then some i else none
  | s@(_ :: t), i => if strPrefixAt sub s then some i else idxAux sub t (i + 1)

/-- Model of `String.prototype.indexOf` (string argument): the first
occurrence index, or `-1`. -/
def jsStrIndexOf (s sub : String) : Int :=
  match idxAux sub.data s.data 0 with
  | some n => (n : Int)
  | none => -1

/-- The source's containment test `s.indexOf(sub) > -1`. -/
def jsIncludes (s sub : String) : Bool :=
  decide (-1 < jsStrIndexOf s sub)

/-- Model of `Array.prototype.indexOf` with a string argument: strict
equality only matches string elements. -/
def jsArrIndexOfAux : List Json → String → Nat → Int
  | [], _, _ => -1
  | .str s :: rest, sub, i => if s = sub then (i : Int) else jsArrIndexOfAux rest sub (i + 1)
  | _ :: rest, sub, i => jsArrIndexOfAux rest sub (i + 1)

/-- The call `x.indexOf(sub)` where `x` is a parse-result member: defined on
strings and arrays; on `undefined`, `null`, numbers and booleans the callee
is not a function (or the access itself throws), a `TypeError`. -/
def jsIndexOfCall : Option Json → String → Except JsError Int
  | some (.str s), sub => .ok (jsStrIndexOf s sub)
  | some (.arr xs), sub => .ok (jsArrIndexOfAux xs sub 0)
  | _, _ => .error (.typeError "indexOf is not a function")

/-- JS falsiness of a JSON value (used by `config.getObject() || {}`). -/
def jsFalsy : Json → Bool
  | .null => true
  | .bool b => !b
  | .num n => decide (n = 0)
  | .str s => decide (s = "")
  | _ => false

/-- JS truthiness of an optional string property (`undefined` and `""` are
falsy). -/
def jsTruthyStr : Option String → Bool
  | none => false
  | some s => decide (s ≠ "")

/-- Template interpolation of a possibly-`undefined` string
(`` `${x}` `` turns `undefined` into the string `"undefined"`). -/
def jsUndefStr : Option String → String
  | none => "undefined"
  | some s => s

/-- Split on a separator character, JS `String.prototype.split` semantics
(`''.split(c) = ['']`, trailing separator yields a trailing `''`). -/
def splitCharsAux (sep : Char) : List Char → List Char → List (List Char)
  | [], acc => [acc.reverse]
  | c :: cs, acc =>
    if c == sep then acc.reverse :: splitCharsAux sep cs []
    else splitCharsAux sep cs (c :: acc)

/-- JS `s.split(sep)` for a single-character separator. -/
def jsSplit (s : String) (sep : Char) : List String :=
  (splitCharsAux sep s.data []).map (fun cs => String.mk cs)

/-! ## The embedded program -/

/-- Key prefix constant (src line 14). -/
def redisPreKey : String := "hydra:service"

/-- What `redisConnect` leaves behind when its promise resolves:
`this.redisdb` has been assigned the client handle (src line 161). -/
structure ConnOutcome where
  connectionStored : Bool
  deriving DecidableEq, Repr

/-- The message of the `TypeError` thrown when `redisConnect` reads
`this.configData.redisPort` with a `null` config. -/
def nullConfigMsg : String := "Cannot read properties of null (reading redisPort)"

/-- `redisConnect` (src lines 157-165), translated.  `configData` is the
program's global config state; `sel` is the result the redis `select`
callback is invoked with.  With a `null` config the field reads on line 159
throw inside the `Promise` executor, which turns the throw into a rejection.
Otherwise the `select` callback stores the handle and resolves *without
inspecting `err`* — the `(err, result)` arguments of line 160 are unused. -/
def redisConnect (configData : Option Json) (sel : Except RErr Unit) :
    Except JsError ConnOutcome :=
  match configData with
  | none => .error (.typeError nullConfigMsg)
  | some .null => .error (.typeError nullConfigMsg)
  | some _ =>
    -- redis.createClient(configData.redisPort, configData.redisUrl):
    -- property reads on a non-null object never throw (absent fields are
    -- `undefined`, accepted by createClient).
    match sel with
    | .ok _ => .ok ⟨true⟩
    | .error _ => .ok ⟨true⟩  -- err ignored: handle stored, promise resolved

/-- `getKeys` (src lines 188-198): wraps `redisdb.keys(pattern, cb)`;
`resp` models the redis `keys` command's answer per pattern.  On `err` it
*resolves with `[]`* instead of rejecting. -/
def getKeys (pattern : String) (resp : String → Except RErr (List String)) :
    List String :=
  match resp pattern with
  | .error _ => []
  | .ok r => r

/-- The routes key built by `getRoutes` (src line 209). -/
def routesKeyFor (serviceName : String) : String :=
  redisPreKey ++ ":" ++ serviceName ++ ":service:routes"

/-- `getRoutes` (src lines 207-218): `smembers` on the per-service routes
key, rejecting on `err` (stricter than `getKeys`).  `smem` models the redis
`smembers` answer per key. -/
def getRoutes (smem : String → Except RErr (List String)) (serviceName : String) :
    Except RErr (List String) :=
  smem (routesKeyFor serviceName)

/-- Startup config loading (src lines 70-90): read the config file
(`file` is the `fs.readFile` callback's `(err, data)`); on success,
`JSON.parse` inside `try`, with the `catch` resetting `configData` to
`null`.  A file holding the JSON text `null` also ends at `null`: building
`conf` reads `this.configData.redisUrl`, which throws on `null` and is
caught by the same `catch`.  The outer value is `.ok` when startup did not
throw; the inner option is the resulting `configData`. -/
def startupLoad (file : Except IOErr String) : Except JsError (Option Json) :=
  match file with
  | .error _ => .ok none
  | .ok data =>
    match jsonParseJS data with
    | .error _ => .ok none
    | .ok .null => .ok none
    | .ok j => .ok (some j)

/-! ### `nodes list` (src lines 354-377) -/

/-- Moment's conversion of the `updatedOn` property to epoch milliseconds:
`moment(undefined)` is the current time; `moment(string)` parses the
timestamp (`mparse`, modelling the external `moment` parser; `none` =
invalid date, i.e. `NaN`); `moment(number)` is that epoch value; other
values give an invalid date. -/
def momentMs (u : Option Json) (now : Int) (mparse : String → Option Int) :
    Option Int :=
  match u with
  | none => some now
  | some (.str s) => mparse s
  | some (.num n) => some n
  | some _ => none

/-- The computed `elapsed` value
`parseInt(moment.duration(now - moment(item.updatedOn)) / 1000)`:
integer division truncating toward zero; a `NaN` chain yields `NaN`, which
`JSON.stringify` serializes as `null`. -/
def elapsedJson (now : Int) (ms : Option Int) : Json :=
  match ms with
  | some m => .num ((now - m).tdiv 1000)
  | none => .null

/-- The statement `item.elapsed = parseInt(...)` (src line 367) together
with its right-hand side's read of `item.updatedOn`: the read throws on
`undefined`/`null` items; the strict-mode assignment throws on primitive
items; on arrays the property is set but dropped by `JSON.stringify`, so the
serialized value is unchanged. -/
def setElapsed (item : Option Json) (now : Int) (mparse : String → Option Int) :
    Except JsError Json :=
  match jsGet item "updatedOn" with
  | .error e => .error e
  | .ok u =>
    match item with
    | some (.obj fs) => .ok (.obj (jsObjSetJ fs "elapsed" (elapsedJson now (momentMs u now mparse))))
    | some (.arr xs) => .ok (.arr xs)
    | some _ => .error (.typeError "Cannot create property on a primitive")
    | none => .error (.typeError "Cannot read properties of undefined")

/-- The filter condition of src line 366:
`(args.length === 0 || args.length === 1) ||
 (args.length === 2 && item.serviceName.indexOf(args[1]) > -1)`.
Short-circuit: with at most one argument the item is never dereferenced;
with exactly two the `serviceName` read and the `indexOf` call may throw;
with three or more the whole condition is `false`. -/
def nodeCond (args : List String) (item : Option Json) : Except JsError Bool :=
  if args.length ≤ 1 then .ok true
  else if args.length = 2 then
    match jsGet item "serviceName" with
    | .error e => .error e
    | .ok sv =>
      match jsIndexOfCall sv (args.getD 1 "") with
      | .error e => .error e
      | .ok ix => .ok (decide (-1 < ix))
  else .ok false

/-- The `Object.keys(data).forEach` loop of src lines 364-370: parse each
hash value, test the condition, augment with `elapsed` and push.  A throw
anywhere aborts the whole loop (the exception propagates out of the
callback). -/
def processNodes (args : List String) (now : Int) (mparse : String → Option Int) :
    List (String × String) → Except JsError (List Json)
  | [] => .ok []
  | (_, v) :: rest =>
    match nodeCond args (safeJSONParse v) with
    | .error e => .error e
    | .ok c =>
      if c then
        match setElapsed (safeJSONParse v) now mparse with
        | .error e => .error e
        | .ok item2 =>
          match processNodes args now mparse rest with
          | .error e => .error e
          | .ok ns => .ok (item2 :: ns)
      else processNodes args now mparse rest

/-- Observable outcome of `handleNodesList`. -/
inductive NodesOut where
  | connectFailed (e : JsError)   -- redisConnect rejected; `.then` never ran
  | errPrinted (e : RErr)         -- hgetall err printed
  | nothingPrinted                -- data === null: no output at all
  | printed (nodes : List Json)   -- JSON array printed
  | thrown (e : JsError)          -- uncaught exception inside the hgetall callback

/-- `handleNodesList` (src lines 354-377).  `hres` is the
`hgetall('hydra:service:nodes', cb)` callback's `(err, data)`; the hash is
an ordered list of (field, raw JSON string) pairs, `none` for a `null`
reply. -/
def handleNodesList (args : List String) (configData : Option Json)
    (sel : Except RErr Unit) (hres : Except RErr (Option (List (String × String))))
    (now : Int) (mparse : String → Option Int) : NodesOut :=
  match redisConnect configData sel with
  | .error e => .connectFailed e
  | .ok _ =>
    match hres with
    | .error e => .errPrinted e
    | .ok none => .nothingPrinted
    | .ok (some data) =>
      match processNodes args now mparse data with
      | .error e => .thrown e
      | .ok nodes => .printed nodes

/-! ### `nodes remove` (src lines 384-400) -/

/-- Observable effects of `handleNodesRemove`, in program order. -/
inductive Eff where
  | print (s : String)
  | scheduleExit                 -- exitApp(): shutdown timer armed
  | connectAttempt               -- redisConnect() invoked
  | hdel (field : Option String) -- hdel issued with args[1] (none = undefined)
  deriving DecidableEq, Repr

/-- `handleNodesRemove` (src lines 384-400), as its effect trace.  Note the
arity guard on line 385 has no `return`: after printing the diagnostic and
arming the shutdown timer the handler *falls through* and still connects and
issues the `hdel`.  `hdelRes` is the `hdel` callback's `(err, data)`. -/
def handleNodesRemove (args : List String) (configData : Option Json)
    (sel : Except RErr Unit) (hdelRes : Except RErr Nat) : List Eff :=
  (if args.length ≠ 2 then [Eff.print "Missing parameter id", Eff.scheduleExit]
   else [])
  ++ Eff.connectAttempt ::
     (match redisConnect configData sel with
      | .error _ => []  -- promise rejected: the .then callback never runs
      | .ok _ =>
        Eff.hdel (args.get? 1) ::
        (match hdelRes with
         | .error e => [Eff.print e.msg]
         | .ok _ => [Eff.print ("nodes entry " ++ jsUndefStr (args.get? 1) ++ " removed")])
        ++ [Eff.scheduleExit])

/-! ### `rest` (src lines 408-463) -/

/-- The object returned by the external `UMFMessage.parseRoute`: an `error`
field when the route is malformed, otherwise an optional `httpMethod`.
Taken as a parameter by `handleRest`, which only reads these two fields. -/
structure RouteObj where
  error : Option String
  httpMethod : Option String
  deriving DecidableEq, Repr

/-- `route.httpMethod || 'get'` (src line 416). -/
def resolvedMethod (r : RouteObj) : String :=
  match r.httpMethod with
  | none => "get"
  | some m => if m = "" then "get" else m

/-- `config.getObject() || {}` (src line 429). -/
def jsOrEmptyObj (j : Json) : Json :=
  if jsFalsy j then .obj [] else j

/-- Observable outcome of `handleRest`. -/
inductive RestOut where
  | abortedRouteError (msg : String) -- route.error printed, shutdown, no call
  | abortedPayload (msg : String)    -- payload rejected, shutdown, no call
  | abortedFileLoad (msg : String)   -- payload file unreadable, no call
  | apiRequestMade (dest : String) (body : Json) (res : Except String Json)
      -- hydra.makeAPIRequest dispatched; `res` is its settlement

/-- `handleRest` (src lines 408-463).  `route` is `parseRoute(args[0])`
(external, taken as a parameter); `fileLoad` is the settlement of
`config.init(args[1])` together with `config.getObject()`; `res` is the
settlement of `hydra.makeAPIRequest`. -/
def handleRest (args : List String) (route : RouteObj)
    (fileLoad : Except String Json) (res : Except String Json) : RestOut :=
  if jsTruthyStr route.error then
    .abortedRouteError (jsUndefStr route.error)
  else
    let method := resolvedMethod route
    if (method = "get" ∨ method = "delete") ∧ 1 < args.length then
      .abortedPayload ("Payload not allowed for HTTP \x27" ++ method ++ "\x27 method")
    else if 1 < args.length then
      match fileLoad with
      | .error _ => .abortedFileLoad ("Unable to open " ++ args.getD 1 "")
      | .ok body => .apiRequestMade (args.getD 0 "") (jsOrEmptyObj body) res
    else
      .apiRequestMade (args.getD 0 "") (.obj []) res

/-- Did `handleRest` dispatch a network request? -/
def restMadeNetwork : RestOut → Bool
  | .apiRequestMade _ _ _ => true
  | _ => false

/-- Did `handleRest` abort with a printed diagnostic (route error or payload
rejection) before doing anything else? -/
def restAbortDiag : RestOut → Bool
  | .abortedRouteError _ => true
  | .abortedPayload _ => true
  | _ => false

/-! ### `routes` (src lines 470-502) -/

/-- One iteration of the `serviceRoutes.forEach` of src lines 477-484:
split the key on `:`, take `segments[2]`, and test the inclusion condition
`args.length === 0 || (args.length === 1 && serviceName.indexOf(args[0]) > -1)`.
Returns the service name to collect, `none` to skip.  With a filter present
and a key of fewer than three segments, `serviceName` is `undefined` and the
`indexOf` call throws.  Without a filter an `undefined` name is pushed; it
is interpolated/keyed as the string `"undefined"` downstream, which
`jsUndefStr` applies at push time. -/
def routesFilterStep (args : List String) (key : String) :
    Except JsError (Option String) :=
  let seg := (jsSplit key ':').get? 2
  if args.length = 0 then .ok (some (jsUndefStr seg))
  else if args.length = 1 then
    match seg with
    | none => .error (.typeError "Cannot read properties of undefined")
    | some nm =>
      if jsIncludes nm (args.getD 0 "") then .ok (some nm) else .ok none
  else .ok none

/-- The full `forEach` of src lines 477-484, collecting `serviceNames` in
discovery order (a throw aborts the loop and rejects the promise chain). -/
def collectNames (args : List String) : List String → Except JsError (List String)
  | [] => .ok []
  | k :: ks =>
    match routesFilterStep args k with
    | .error e => .error e
    | .ok none => collectNames args ks
    | .ok (some nm) =>
      match collectNames args ks with
      | .error e => .error e
      | .ok ns => .ok (nm :: ns)

/-- `Promise.all(promises)` over `getRoutes` calls (src lines 482-485):
all must resolve, in which case the results keep the order of `names`;
any rejection rejects the whole batch (the real rejection carries the
earliest-settled error; the claims never depend on which one). -/
def fetchAll (smem : String → Except RErr (List String)) :
    List String → Except RErr (List (List String))
  | [] => .ok []
  | n :: ns =>
    match getRoutes smem n with
    | .error e => .error e
    | .ok rs =>
      match fetchAll smem ns with
      | .error e => .error e
      | .ok rss => .ok (rs :: rss)

/-- JS object property write for route-set values (same semantics as
`jsObjSetJ`): overwrite in place or append. -/
def objSetL : List (String × List String) → String → List String → List (String × List String)
  | [], k, v => [(k, v)]
  | (k0, v0) :: rest, k, v =>
    if k0 = k then (k0, v) :: rest else (k0, v0) :: objSetL rest k v

/-- The assembly loop of src lines 490-493: iterate the fetched route lists,
pairing each with `serviceNames[idx]`; the two lists have equal length by
construction.  The resulting association list is the JS object `resObj` in
key-insertion order. -/
def assembleAux : List (String × List String) → List String → List (List String) →
    List (String × List String)
  | acc, n :: ns, r :: rs => assembleAux (objSetL acc n r) ns rs
  | acc, _, _ => acc

/-- Observable outcome of `handleRoutes`. -/
inductive RoutesOut where
  | connectFailed (e : JsError)  -- redisConnect rejected; nothing ran
  | errPrintedJs (e : JsError)   -- TypeError thrown in a .then, caught+printed
  | errPrinted (e : RErr)        -- a getRoutes rejection, caught+printed
  | printed (obj : List (String × List String))

/-- `handleRoutes` (src lines 470-502).  `keysResp` models the redis `keys`
answer (fed through the lenient `getKeys`); `smem` models `smembers` per
routes key. -/
def handleRoutes (args : List String) (configData : Option Json)
    (sel : Except RErr Unit) (keysResp : String → Except RErr (List String))
    (smem : String → Except RErr (List String)) : RoutesOut :=
  match redisConnect configData sel with
  | .error e => .connectFailed e
  | .ok _ =>
    let serviceRoutes := getKeys "*:routes" keysResp
    match collectNames args serviceRoutes with
    | .error e => .errPrintedJs e
    | .ok names =>
      match fetchAll smem names with
      | .error e => .errPrinted e
      | .ok routes => .printed (assembleAux [] names routes)

/-! ### `healthlog` (src lines 278-309) -/

/-- The wildcard pattern of src line 281, with `args[0]` interpolated. -/
def healthLogPattern (args : List String) : String :=
  "*:" ++ jsUndefStr (args.get? 0) ++ ":*:health:log"

/-- Observable outcome of `handleHealthLog`. -/
inductive HealthOut where
  | connectFailed (e : JsError)           -- redisConnect rejected
  | emptyPrinted (line : String)          -- the zero-instances fast path:
                                          -- printed literally, no batch issued
  | batchErrPrinted (e : RErr)            -- exec err printed
  | thrown (e : JsError)                  -- exception in the exec callback
  | responsePrinted (entries : List (Option Json))
      -- JSON.stringify(response) printed; `none` entries are `undefined`
      -- (safeJSONParse failures), serialized as `null`

/-- `handleHealthLog` (src lines 278-309).  `keysResp` models the redis
`keys` answer (via the lenient `getKeys`); `batchExec` is the settlement of
the `multi`/`lrange(instance, 0, 100)`/`exec` batch, one entry list per
instance key, in key order.  When no instance matches, the literal `[]` is
printed and no batch is built.  Otherwise only `result[0]` — the first
matched instance's entries — is iterated (src line 298), each entry pushed
as `Utils.safeJSONParse(entry)`. -/
def handleHealthLog (args : List String) (configData : Option Json)
    (sel : Except RErr Unit) (keysResp : String → Except RErr (List String))
    (batchExec : List String → Except RErr (List (List String))) : HealthOut :=
  match redisConnect configData sel with
  | .error e => .connectFailed e
  | .ok _ =>
    let instances := getKeys (healthLogPattern args) keysResp
    if instances.length = 0 then .emptyPrinted "[]"
    else
      match batchExec instances with
      | .error e => .batchErrPrinted e
      | .ok result =>
        match result with
        | [] => .thrown (.typeError "Cannot read properties of undefined")
        | r0 :: _ => .responsePrinted (r0.map safeJSONParse)

/-! ## Bridging lemmas: the source's `indexOf(...) > -1` test is substring
containment -/

theorem strPrefixAt_iff (l : List Char) : ∀ (s : List Char),
    strPrefixAt l s = true ↔ ∃ t, s = l ++ t := by
  induction l with
  | nil => intro s; simp [strPrefixAt]
  | cons a as ih =>
    intro s
    cases s with
    | nil => simp [strPrefixAt]
    | cons b bs =>
      simp only [strPrefixAt, Bool.and_eq_true, beq_iff_eq, ih, List.cons_append,
        List.cons.injEq]
      constructor
      · rintro ⟨hab, t, ht⟩
        exact ⟨t, hab.symm, ht⟩
      · rintro ⟨t, hba, ht⟩
        exact ⟨hba.symm, t, ht⟩

theorem idxAux_isSome_iff (sub : List Char) : ∀ (s : List Char) (i : Nat),
    (idxAux sub s i).isSome = true ↔ ∃ pre post, s = pre ++ sub ++ post := by
  intro s
  induction s with
  | nil =>
    intro i
    simp only [idxAux]
    by_cases h : strPrefixAt sub [] = true
    · rw [if_pos h]
      obtain ⟨t, ht⟩ := (strPrefixAt_iff sub []).1 h
      have hsub : sub = [] := by
        cases sub with
        | nil => rfl
        | cons x xs => simp at ht
      subst hsub
      simp only [Option.isSome_some, true_iff]
      exact ⟨[], [], rfl⟩
    · rw [if_neg h]
      simp only [Option.isSome_none, Bool.false_eq_true, false_iff]
      rintro ⟨pre, post, hpp⟩
      have hsub : sub = [] := by
        rcases List.append_eq_nil.1 (List.append_eq_nil.1 hpp.symm).1 with ⟨-, h2⟩
        exact h2
      subst hsub
      exact h rfl
  | cons c t ih =>
    intro i
    simp only [idxAux]
    by_cases h : strPrefixAt sub (c :: t) = true
    · rw [if_pos h]
      obtain ⟨u, hu⟩ := (strPrefixAt_iff sub (c :: t)).1 h
      simp only [Option.isSome_some, true_iff]
      exact ⟨[], u, by simpa using hu⟩
    · rw [if_neg h, ih (i + 1)]
      constructor
      · rintro ⟨pre, post, hpp⟩
        exact ⟨c :: pre, post, by simp [hpp]⟩
      · rintro ⟨pre, post, hpp⟩
        cases pre with
        | nil =>
          exfalso
          exact h ((strPrefixAt_iff sub (c :: t)).2 ⟨post, by simpa using hpp⟩)
        | cons p ps =>
          simp only [List.cons_append, List.cons.injEq] at hpp
          exact ⟨ps, post, hpp.2⟩

/-- The containment test the source uses (`s.indexOf(sub) > -1`) holds
exactly when `sub` occurs contiguously inside `s`. -/
theorem jsIncludes_iff (s sub : String) :
    jsIncludes s sub = true ↔ ∃ pre post, s.data = pre ++ sub.data ++ post := by
  rw [← idxAux_isSome_iff sub.data s.data 0]
  obtain ⟨o, ho⟩ : ∃ o, idxAux sub.data s.data 0 = o := ⟨_, rfl⟩
  cases o with
  | none => simp [jsIncludes, jsStrIndexOf, ho]
  | some n =>
    simp only [jsIncludes, jsStrIndexOf, ho, Option.isSome_some, iff_true,
      decide_eq_true_eq]
    omega

/-! ## Shared helpers about the embedded program -/

/-- For any present, non-`null` config object, `redisConnect` resolves and
stores the handle no matter how `select` answered. -/
theorem redisConnect_ok (j : Json) (hj : j ≠ .null) (sel : Except RErr Unit) :
    redisConnect (some j) sel = .ok ⟨true⟩ := by
  cases j with
  | null => exact absurd rfl hj
  | bool b => cases sel <;> rfl
  | num n => cases sel <;> rfl
  | str s => cases sel <;> rfl
  | arr xs => cases sel <;> rfl
  | obj fs => cases sel <;> rfl

/-- Well-formedness of one stored node value: it parses as a JSON object
whose `serviceName` field is a string (the `ServiceNode` shape of the data
model). -/
def NodeOK (v : String) : Prop :=
  ∃ fs nm, safeJSONParse v = some (.obj fs) ∧ jsLookup fs "serviceName" = some (.str nm)

/-- The `serviceName` of a stored node value (empty for ill-formed values;
only used under `NodeOK`). -/
def svcNameOf (v : String) : String :=
  match safeJSONParse v with
  | some (.obj fs) =>
    (match jsLookup fs "serviceName" with
     | some (.str nm) => nm
     | _ => "")
  | _ => ""

/-- The item as pushed by the `nodes list` loop: the parsed value augmented
with its `elapsed` field (`Json.null` for values the loop would throw on;
only used under `NodeOK`). -/
def augmentNode (v : String) (now : Int) (mparse : String → Option Int) : Json :=
  match setElapsed (safeJSONParse v) now mparse with
  | .ok j => j
  | .error _ => .null

/-- The `nodes list` loop keeps exactly the entries whose `serviceName`
passes the `indexOf` test, each augmented with `elapsed`, in hash order. -/
theorem processNodes_filter (filter : String) (now : Int) (mparse : String → Option Int) :
    ∀ (data : List (String × String)), (∀ fv ∈ data, NodeOK fv.2) →
    processNodes ["list", filter] now mparse data
      = .ok ((data.filter (fun fv => jsIncludes (svcNameOf fv.2) filter)).map
          (fun fv => augmentNode fv.2 now mparse)) := by
  intro data
  induction data with
  | nil => intro _; rfl
  | cons fv rest ih =>
    intro hok
    obtain ⟨fs, nm, hp, hl⟩ := hok fv (List.mem_cons_self fv rest)
    have hrest := ih (fun x hx => hok x (List.mem_cons_of_mem fv hx))
    obtain ⟨f, v⟩ := fv
    simp only at hp hl
    have hcond : nodeCond ["list", filter] (safeJSONParse v)
        = .ok (jsIncludes nm filter) := by
      simp [nodeCond, hp, jsGet, hl, jsIndexOfCall, jsIncludes]
    have hname : svcNameOf v = nm := by
      simp [svcNameOf, hp, hl]
    have haug : setElapsed (safeJSONParse v) now mparse
        = .ok (augmentNode v now mparse) := by
      simp [augmentNode, setElapsed, hp, jsGet]
    by_cases hinc : jsIncludes nm filter = true
    · simp [processNodes, hcond, hinc, haug, hrest, List.filter_cons, hname]
    · simp [processNodes, hcond, hinc, haug, hrest, List.filter_cons, hname]

/-- With at most two arguments (`nodes`, `nodes list`, `nodes list f`), an
unparseable stored value makes the `nodes list` loop throw: `safeJSONParse`
yields `undefined` and the loop dereferences it. -/
theorem processNodes_error_of_unparseable (args : List String) (now : Int)
    (mparse : String → Option Int) (hargs : args.length ≤ 2) :
    ∀ (data : List (String × String)), (∃ fv ∈ data, safeJSONParse fv.2 = none) →
    ∃ e, processNodes args now mparse data = .error e := by
  intro data
  induction data with
  | nil =>
    rintro ⟨fv, hfv, -⟩
    exact absurd hfv (List.not_mem_nil fv)
  | cons fv rest ih =>
    rintro ⟨gv, hgv, hbad⟩
    obtain ⟨f, v⟩ := fv
    rcases List.mem_cons.1 hgv with heq | hmem
    · subst heq
      simp only at hbad
      by_cases h1 : args.length ≤ 1
      · refine ⟨.typeError "Cannot read properties of undefined", ?_⟩
        simp [processNodes, hbad, nodeCond, h1, setElapsed, jsGet]
      · have h2 : args.length = 2 := by omega
        refine ⟨.typeError "Cannot read properties of undefined", ?_⟩
        simp [processNodes, hbad, nodeCond, h1, h2, jsGet]
    · obtain ⟨e, he⟩ := ih ⟨gv, hmem, hbad⟩
      cases hnc : nodeCond args (safeJSONParse v) with
      | error enc => exact ⟨enc, by simp [processNodes, hnc]⟩
      | ok c =>
        by_cases hc : c = true
        · cases hse : setElapsed (safeJSONParse v) now mparse with
          | error ese => exact ⟨ese, by simp [processNodes, hnc, hc, hse]⟩
          | ok j => exact ⟨e, by simp [processNodes, hnc, hc, hse, he]⟩
        · exact ⟨e, by simp [processNodes, hnc, hc, he]⟩

/-- `segments[2]` of a discovered routes key (src lines 478-479). -/
def routeKeySvc (k : String) : Option String :=
  (jsSplit k ':').get? 2

/-- The discovery loop of `handleRoutes` collects exactly the extracted
names passing the `indexOf` filter, in discovery order. -/
theorem collectNames_filter (filter : String) :
    ∀ (keys names : List String), keys.map routeKeySvc = names.map some →
    collectNames [filter] keys = .ok (names.filter (fun n => jsIncludes n filter)) := by
  intro keys
  induction keys with
  | nil =>
    intro names hx
    cases names with
    | nil => rfl
    | cons n ns => simp at hx
  | cons k ks ih =>
    intro names hx
    cases names with
    | nil => simp at hx
    | cons n ns =>
      simp only [List.map_cons, List.cons.injEq] at hx
      obtain ⟨h1, h2⟩ := hx
      simp only [routeKeySvc, List.get?_eq_getElem?] at h1
      by_cases hinc : jsIncludes n filter = true
      · have hstep : routesFilterStep [filter] k = .ok (some n) := by
          simp [routesFilterStep, h1, hinc]
        simp [collectNames, hstep, ih ns h2, List.filter_cons, hinc]
      · have hstep : routesFilterStep [filter] k = .ok none := by
          simp [routesFilterStep, h1, hinc]
        simp [collectNames, hstep, ih ns h2, List.filter_cons, hinc]

/-- When every per-service `smembers` answers, the joined batch resolves
with the route sets in name order. -/
theorem fetchAll_ok (smem : String → Except RErr (List String))
    (rts : String → List String) :
    ∀ (ns : List String), (∀ n ∈ ns, smem (routesKeyFor n) = .ok (rts n)) →
    fetchAll smem ns = .ok (ns.map rts) := by
  intro ns
  induction ns with
  | nil => intro _; rfl
  | cons n ns ih =>
    intro h
    simp [fetchAll, getRoutes, h n (List.mem_cons_self n ns),
      ih (fun x hx => h x (List.mem_cons_of_mem n hx))]

/-- Setting a key absent from the object appends it. -/
theorem objSetL_append (k : String) (v : List String) :
    ∀ (acc : List (String × List String)), (∀ p ∈ acc, p.1 ≠ k) →
    objSetL acc k v = acc ++ [(k, v)] := by
  intro acc
  induction acc with
  | nil => intro _; rfl
  | cons p rest ih =>
    intro h
    obtain ⟨k0, v0⟩ := p
    have hne : k0 ≠ k := h (k0, v0) (List.mem_cons_self _ _)
    simp [objSetL, hne, ih (fun q hq => h q (List.mem_cons_of_mem _ hq))]

/-- The assembly loop over distinct names builds the association list in
name order. -/
theorem assembleAux_append (rts : String → List String) :
    ∀ (ns : List String) (acc : List (String × List String)),
      (∀ n ∈ ns, ∀ p ∈ acc, p.1 ≠ n) → ns.Nodup →
      assembleAux acc ns (ns.map rts) = acc ++ ns.map (fun n => (n, rts n)) := by
  intro ns
  induction ns with
  | nil =>
    intro acc _ _
    simp [assembleAux]
  | cons n ns ih =>
    intro acc hdisj hnd
    obtain ⟨hnmem, hnd2⟩ := List.nodup_cons.1 hnd
    simp only [List.map_cons]
    rw [assembleAux]
    rw [objSetL_append n (rts n) acc (fun p hp => hdisj n (List.mem_cons_self _ _) p hp)]
    rw [ih (acc ++ [(n, rts n)]) ?_ hnd2]
    · simp
    · intro m hm p hp
      rcases List.mem_append.1 hp with hpa | hpb
      · exact hdisj m (List.mem_cons_of_mem _ hm) p hpa
      · have hpn : p = (n, rts n) := by simpa using hpb
        subst hpn
        show n ≠ m
        intro hcontra
        subst hcontra
        exact hnmem hm

/-! ## Concrete instances used by witnesses and counterexamples -/

/-- A well-formed config object, as the `config` command writes it. -/
def cfgObjEx : Json :=
  .obj [("redisUrl", .str "127.0.0.1"), ("redisPort", .num 6379), ("redisDb", .num 0)]

theorem cfgObjEx_ne_null : cfgObjEx ≠ Json.null := fun h => Json.noConfusion h

/-- A config object selecting an out-of-range logical database index. -/
def cfgBadDbEx : Json :=
  .obj [("redisUrl", .str "127.0.0.1"), ("redisPort", .num 6379), ("redisDb", .num 99)]

/-! ## The claims -/

/-- Claim C1, counterexample.  The claim says that on an invalid database
index the connect operation does not yield a usable connection and the
handler surfaces the raw error and terminates.  In the source the `select`
callback (line 160) ignores its `err` argument: with a configured store and
`select` failing with the raw redis error, `redisConnect` still resolves
successfully and stores the connection handle, so handlers proceed with
store operations. -/
theorem redisConnect_invalid_db_counterexample :
    redisConnect (some cfgBadDbEx) (.error ⟨"ERR DB index is out of range"⟩)
      = .ok ⟨true⟩ := rfl

/-- Claim C1, amended.  For every present, non-`null` configuration and
every outcome of the `select` call — success, refused connection, or invalid
database index — `redisConnect` resolves successfully and stores the
connection handle; the select error is never surfaced and never prevents the
handler from proceeding.  Only the unconfigured (`null` config) state makes
the returned promise reject, via the `TypeError` thrown when reading the
config fields. -/
theorem redisConnect_always_resolves (j : Json) (hj : j ≠ .null)
    (sel : Except RErr Unit) :
    redisConnect (some j) sel = .ok ⟨true⟩ :=
  redisConnect_ok j hj sel

/-- Claim C1, witness for the amended theorem at a concrete input. -/
theorem redisConnect_always_resolves_witness :
    (Json.obj [] ≠ Json.null)
    ∧ redisConnect (some (Json.obj [])) (.error ⟨"ECONNREFUSED"⟩) = .ok ⟨true⟩ :=
  ⟨fun h => Json.noConfusion h,
   redisConnect_always_resolves (Json.obj []) (fun h => Json.noConfusion h)
     (.error ⟨"ECONNREFUSED"⟩)⟩

/-- Claim C2: for every config file content that is absent or not valid
JSON, startup does not throw — the parse failure is caught and `configData`
falls back to `null` — and a subsequently attempted store-dependent command
(e.g. `nodes list`) fails at the connect step with the `TypeError` raised
inside `redisConnect` (a connection-stage error, not a parse crash: the
error is a `typeError`, not a `syntaxError`). -/
theorem startup_tolerant_and_connect_fails (file : Except IOErr String)
    (hbad : (∃ e, file = .error e) ∨ ∃ s, file = .ok s ∧ safeJSONParse s = none) :
    startupLoad file = .ok none
    ∧ (∀ sel, redisConnect none sel = .error (.typeError nullConfigMsg))
    ∧ (∀ sel hres now mparse,
        handleNodesList ["list"] none sel hres now mparse
          = .connectFailed (.typeError nullConfigMsg)) := by
  refine ⟨?_, fun sel => rfl, fun sel hres now mparse => rfl⟩
  rcases hbad with ⟨e, he⟩ | ⟨s, hs, hp⟩
  · subst he; rfl
  · subst hs
    unfold safeJSONParse at hp
    cases hj : jsonParseJS s with
    | error e2 => simp [startupLoad, hj]
    | ok j => rw [hj] at hp; simp at hp

/-- Claim C2, witness at a concrete corrupt config file. -/
theorem startup_tolerant_and_connect_fails_witness :
    safeJSONParse "oops" = none
    ∧ startupLoad (.ok "oops") = .ok none
    ∧ redisConnect none (.ok ()) = .error (.typeError nullConfigMsg)
    ∧ handleNodesList ["list"] none (.ok ()) (.ok none) 0 (fun _ => none)
        = .connectFailed (.typeError nullConfigMsg) := by
  have h := startup_tolerant_and_connect_fails (.ok "oops") (.inr ⟨"oops", rfl, rfl⟩)
  exact ⟨rfl, h.1, h.2.1 (.ok ()), h.2.2 (.ok ()) (.ok none) 0 (fun _ => none)⟩

/-- Claim C3, evaluation at the failing input.  The claim says a handler
receiving the wrong number of positional arguments performs the graceful
shutdown *without* attempting the store operation.  `handleNodesRemove`
(src line 385) lacks a `return` after its arity guard: invoked as
`nodes remove` (one argument), it prints the diagnostic and arms the
shutdown timer, but then still connects and issues the `hdel` with an
`undefined` field, and even prints the success confirmation. -/
theorem nodesRemove_wrong_arity_still_deletes :
    handleNodesRemove ["remove"] (some cfgObjEx) (.ok ()) (.ok 1)
      = [.print "Missing parameter id", .scheduleExit, .connectAttempt,
         .hdel none, .print "nodes entry undefined removed", .scheduleExit] := rfl

/-- Claim C6: with a configured store, when the wildcard enumeration for the
service's health-log keys yields zero instance keys, `handleHealthLog`
prints exactly the literal `[]` and exits, and no batch read is issued (the
result is the `emptyPrinted` outcome, reached before `multi`/`exec`, for
every possible batch oracle). -/
theorem healthlog_no_instances_prints_empty (args : List String) (cfg : Json)
    (sel : Except RErr Unit) (keysResp : String → Except RErr (List String))
    (batchExec : List String → Except RErr (List (List String)))
    (hcfg : cfg ≠ .null)
    (hempty : getKeys (healthLogPattern args) keysResp = []) :
    handleHealthLog args (some cfg) sel keysResp batchExec = .emptyPrinted "[]" := by
  simp [handleHealthLog, redisConnect_ok cfg hcfg sel, hempty]

/-- Claim C6, witness at a concrete empty enumeration. -/
theorem healthlog_no_instances_prints_empty_witness :
    getKeys (healthLogPattern ["svc"]) (fun _ => .ok []) = []
    ∧ handleHealthLog ["svc"] (some cfgObjEx) (.ok ()) (fun _ => .ok [])
        (fun _ => .ok []) = .emptyPrinted "[]" :=
  ⟨rfl, healthlog_no_instances_prints_empty ["svc"] cfgObjEx (.ok ())
      (fun _ => .ok []) (fun _ => .ok []) cfgObjEx_ne_null rfl⟩

/-- Claim C9: for every pattern, when the underlying wildcard `keys` command
fails, `getKeys` resolves with the empty sequence instead of propagating the
error — indistinguishable from a successful enumeration that matched
nothing. -/
theorem getKeys_error_indistinguishable (pattern : String) (e : RErr)
    (respErr respEmpty : String → Except RErr (List String))
    (h1 : respErr pattern = .error e) (h2 : respEmpty pattern = .ok []) :
    getKeys pattern respErr = []
    ∧ getKeys pattern respErr = getKeys pattern respEmpty := by
  constructor
  · simp [getKeys, h1]
  · simp [getKeys, h1, h2]

/-- Claim C9, witness at a concrete failing lookup. -/
theorem getKeys_error_indistinguishable_witness :
    ((fun _ : String => (.error ⟨"ERR lookup"⟩ : Except RErr (List String))) "p"
        = .error ⟨"ERR lookup"⟩)
    ∧ getKeys "p" (fun _ => .error ⟨"ERR lookup"⟩) = []
    ∧ getKeys "p" (fun _ => .error ⟨"ERR lookup"⟩) = getKeys "p" (fun _ => .ok []) := by
  have h := getKeys_error_indistinguishable "p" ⟨"ERR lookup"⟩
    (fun _ => .error ⟨"ERR lookup"⟩) (fun _ => .ok []) rfl rfl
  exact ⟨rfl, h.1, h.2⟩

/-- Claim C4: for every `rest` invocation whose parsed route resolves to
method `get` or `delete` (`get` being the default when `httpMethod` is
absent or empty) and which supplies a payload file argument
(`args.length > 1`), the handler aborts with a printed diagnostic — the
payload rejection, or the earlier route-error rejection — and no network
request is dispatched. -/
theorem rest_rejects_payload_get_delete (args : List String) (route : RouteObj)
    (fileLoad res : Except String Json)
    (hm : resolvedMethod route = "get" ∨ resolvedMethod route = "delete")
    (hp : 1 < args.length) :
    restMadeNetwork (handleRest args route fileLoad res) = false
    ∧ restAbortDiag (handleRest args route fileLoad res) = true := by
  by_cases he : jsTruthyStr route.error = true
  · simp [handleRest, he, restMadeNetwork, restAbortDiag]
  · simp [handleRest, he, hm, hp, restMadeNetwork, restAbortDiag]

/-- Claim C4, witness: a method-omitted route (resolving to `get`) with a
payload file argument. -/
theorem rest_rejects_payload_get_delete_witness :
    (resolvedMethod ⟨none, none⟩ = "get" ∨ resolvedMethod ⟨none, none⟩ = "delete")
    ∧ 1 < (["somesvc:/v1/x", "payload.json"] : List String).length
    ∧ restMadeNetwork (handleRest ["somesvc:/v1/x", "payload.json"] ⟨none, none⟩
        (.ok (.obj [])) (.ok .null)) = false
    ∧ restAbortDiag (handleRest ["somesvc:/v1/x", "payload.json"] ⟨none, none⟩
        (.ok (.obj [])) (.ok .null)) = true := by
  have h := rest_rejects_payload_get_delete ["somesvc:/v1/x", "payload.json"]
    ⟨none, none⟩ (.ok (.obj [])) (.ok .null) (.inl rfl) (by decide)
  exact ⟨.inl rfl, by decide, h.1, h.2⟩

/-- Claim C5, counterexample.  The claim says an entry that does not parse
as JSON appears in the printed array as the raw string, so the instance
holding entries `["{"a":1}", "not-json"]` would print `[{"a":1},
"not-json"]`.  In the source (line 300) the loop pushes
`Utils.safeJSONParse(entry)` itself, which is `undefined` for a failed
parse; `JSON.stringify` serializes that slot as `null`, not as the raw
string.  The computed response is `[{"a":1}, undefined]`, which differs from
the claimed `[{"a":1}, "not-json"]`. -/
theorem healthlog_nonjson_entry_counterexample :
    handleHealthLog ["svc"] (some cfgObjEx) (.ok ())
        (fun _ => .ok ["a:svc:1:health:log"])
        (fun _ => .ok [["\x7b\"a\":1\x7d", "not-json"]])
      = .responsePrinted [some (.obj [("a", .num 1)]), none]
    ∧ (.responsePrinted [some (.obj [("a", .num 1)]), none] : HealthOut)
      ≠ .responsePrinted [some (.obj [("a", .num 1)]), some (.str "not-json")] := by
  constructor
  · rfl
  · intro h
    simp at h

/-- Claim C5, amended: each health-log entry of the first matched instance
appears in the printed array as `safeJSONParse` of the entry — the parsed
object when the entry parses as JSON, and `undefined` (serialized `null`),
not the raw string, when it does not. -/
theorem healthlog_entries_safeparse (args : List String) (cfg : Json)
    (sel : Except RErr Unit) (keysResp : String → Except RErr (List String))
    (batchExec : List String → Except RErr (List (List String)))
    (r0 : List String) (rest : List (List String))
    (hcfg : cfg ≠ .null)
    (hne : getKeys (healthLogPattern args) keysResp ≠ [])
    (hb : batchExec (getKeys (healthLogPattern args) keysResp) = .ok (r0 :: rest)) :
    handleHealthLog args (some cfg) sel keysResp batchExec
      = .responsePrinted (r0.map safeJSONParse) := by
  have hlen : (getKeys (healthLogPattern args) keysResp).length ≠ 0 := by
    simpa [List.length_eq_zero] using hne
  simp [handleHealthLog, redisConnect_ok cfg hcfg sel, hlen, hb]

/-- Claim C5, witness for the amended theorem: one parseable and one
unparseable entry. -/
theorem healthlog_entries_safeparse_witness :
    getKeys (healthLogPattern ["svc"]) (fun _ => .ok ["k1"]) ≠ []
    ∧ handleHealthLog ["svc"] (some cfgObjEx) (.ok ()) (fun _ => .ok ["k1"])
        (fun _ => .ok [["1", "zap"]])
      = .responsePrinted (["1", "zap"].map safeJSONParse) := by
  refine ⟨by simp [getKeys], ?_⟩
  exact healthlog_entries_safeparse ["svc"] cfgObjEx (.ok ()) (fun _ => .ok ["k1"])
    (fun _ => .ok [["1", "zap"]]) ["1", "zap"] [] cfgObjEx_ne_null
    (by simp [getKeys]) rfl

/-- Claim C7: with a configured store and well-formed stored nodes, a node
is included in the printed `nodes list <filter>` array iff its
`serviceName` contains the filter as a case-sensitive substring (the second
conjunct grounds the code's `indexOf(...) > -1` test as substring
containment); kept nodes appear in hash order augmented with `elapsed`.
The empty filter includes every node (the empty list is a prefix of every
suffix), and a filter matching nothing yields the empty array. -/
theorem nodesList_filter_iff_substring (data : List (String × String))
    (filter : String) (now : Int) (mparse : String → Option Int) (cfg : Json)
    (sel : Except RErr Unit) (hcfg : cfg ≠ .null)
    (hok : ∀ fv ∈ data, NodeOK fv.2) :
    handleNodesList ["list", filter] (some cfg) sel (.ok (some data)) now mparse
      = .printed ((data.filter (fun fv => jsIncludes (svcNameOf fv.2) filter)).map
          (fun fv => augmentNode fv.2 now mparse))
    ∧ ∀ a b : String, jsIncludes a b = true
        ↔ ∃ pre post, a.data = pre ++ b.data ++ post := by
  refine ⟨?_, jsIncludes_iff⟩
  simp [handleNodesList, redisConnect_ok cfg hcfg sel,
    processNodes_filter filter now mparse data hok]

/-- Two stored nodes for the `nodes list` witness. -/
def nodesDataEx : List (String × String) :=
  [("i1", "\x7b\"serviceName\":\"alpha\",\"updatedOn\":\"t0\"\x7d"),
   ("i2", "\x7b\"serviceName\":\"beta\",\"updatedOn\":\"t0\"\x7d")]

/-- A trivial model of moment's timestamp parser for witnesses. -/
def mparseEx : String → Option Int := fun _ => some 0

/-- Claim C7, witness: filter `"alp"` keeps `alpha` and drops `beta`. -/
theorem nodesList_filter_iff_substring_witness :
    (∀ fv ∈ nodesDataEx, NodeOK fv.2)
    ∧ handleNodesList ["list", "alp"] (some cfgObjEx) (.ok ())
        (.ok (some nodesDataEx)) 5000 mparseEx
      = .printed ((nodesDataEx.filter
            (fun fv => jsIncludes (svcNameOf fv.2) "alp")).map
          (fun fv => augmentNode fv.2 5000 mparseEx)) := by
  have hok : ∀ fv ∈ nodesDataEx, NodeOK fv.2 := by
    intro fv hfv
    simp only [nodesDataEx, List.mem_cons, List.not_mem_nil, or_false] at hfv
    rcases hfv with h | h <;> subst h
    · exact ⟨[("serviceName", .str "alpha"), ("updatedOn", .str "t0")], "alpha",
        rfl, rfl⟩
    · exact ⟨[("serviceName", .str "beta"), ("updatedOn", .str "t0")], "beta",
        rfl, rfl⟩
  exact ⟨hok, (nodesList_filter_iff_substring nodesDataEx "alp" 5000 mparseEx
    cfgObjEx (.ok ()) cfgObjEx_ne_null hok).1⟩

/-- Claim C8: with a configured store, discovered per-service route keys (in
order), distinct extracted names, and all per-service `smembers` succeeding,
the printed `routes` object contains exactly the services whose name
contains the filter as a substring (second conjunct grounds the `indexOf`
test), each mapped to its route set, with keys in discovery order; services
filtered out are absent. -/
theorem routes_filter_aggregation (keys names : List String) (filter : String)
    (cfg : Json) (sel : Except RErr Unit)
    (keysResp smem : String → Except RErr (List String))
    (rts : String → List String)
    (hcfg : cfg ≠ .null)
    (hkeys : keysResp "*:routes" = .ok keys)
    (hx : keys.map routeKeySvc = names.map some)
    (hnd : names.Nodup)
    (hsm : ∀ n ∈ names, smem (routesKeyFor n) = .ok (rts n)) :
    handleRoutes [filter] (some cfg) sel keysResp smem
      = .printed ((names.filter (fun n => jsIncludes n filter)).map
          (fun n => (n, rts n)))
    ∧ ∀ a b : String, jsIncludes a b = true
        ↔ ∃ pre post, a.data = pre ++ b.data ++ post := by
  refine ⟨?_, jsIncludes_iff⟩
  have hsr : getKeys "*:routes" keysResp = keys := by simp [getKeys, hkeys]
  have hcn := collectNames_filter filter keys names hx
  have hfa := fetchAll_ok smem rts (names.filter (fun n => jsIncludes n filter))
    (fun n hn => hsm n (List.mem_of_mem_filter hn))
  have has := assembleAux_append rts (names.filter (fun n => jsIncludes n filter))
    [] (fun n _ p hp => absurd hp (List.not_mem_nil p)) (hnd.filter _)
  simp [handleRoutes, redisConnect_ok cfg hcfg sel, hsr, hcn, hfa, has]

/-- Three discovered route keys for the `routes` witness. -/
def routesKeysEx : List String :=
  ["hydra:service:alpha:service:routes",
   "hydra:service:beta:service:routes",
   "hydra:service:gamma:service:routes"]

/-- The corresponding extracted service names. -/
def routesNamesEx : List String := ["alpha", "beta", "gamma"]

/-- `smembers` answers for the `routes` witness: only `beta` has routes. -/
def smemEx : String → Except RErr (List String) := fun k =>
  if k = "hydra:service:beta:service:routes" then .ok ["[get]/v1/b"] else .ok []

/-- The per-name route sets matching `smemEx`. -/
def rtsEx : String → List String := fun n =>
  if n = "beta" then ["[get]/v1/b"] else []

/-- The `keys` answer for the `routes` witness. -/
def keysRespEx : String → Except RErr (List String) := fun _ => .ok routesKeysEx

/-- Claim C8, witness: keys [alpha, beta, gamma] with filter `"bet"` keep
exactly `beta`, mapped to its route set. -/
theorem routes_filter_aggregation_witness :
    keysRespEx "*:routes" = .ok routesKeysEx
    ∧ routesKeysEx.map routeKeySvc = routesNamesEx.map some
    ∧ routesNamesEx.Nodup
    ∧ handleRoutes ["bet"] (some cfgObjEx) (.ok ()) keysRespEx smemEx
      = .printed ((routesNamesEx.filter (fun n => jsIncludes n "bet")).map
          (fun n => (n, rtsEx n))) := by
  have hsm : ∀ n ∈ routesNamesEx, smemEx (routesKeyFor n) = .ok (rtsEx n) := by
    intro n hn
    simp only [routesNamesEx, List.mem_cons, List.not_mem_nil, or_false] at hn
    rcases hn with h | h | h <;> subst h <;> rfl
  refine ⟨rfl, rfl, by decide, ?_⟩
  exact (routes_filter_aggregation routesKeysEx routesNamesEx "bet" cfgObjEx
    (.ok ()) keysRespEx smemEx rtsEx cfgObjEx_ne_null rfl rfl (by decide) hsm).1

/-- Claim C10: the `nodes list` loop dereferences each parsed value without
a null check.  For every invocation with at most two arguments (`nodes`,
`nodes list`, `nodes list f` — the forms whose condition reaches the
dereferences) and every stored hash in which some field's value is not valid
JSON, the handler throws a `TypeError` (at the `serviceName` substring test
when a filter is present, else at the `elapsed`/`updatedOn` access) instead
of degrading to raw-string display; hence it is safe only when every stored
value parses as JSON. -/
theorem nodesList_throws_on_unparseable (args : List String) (cfg : Json)
    (sel : Except RErr Unit) (data : List (String × String)) (now : Int)
    (mparse : String → Option Int)
    (hargs : args.length ≤ 2) (hcfg : cfg ≠ .null)
    (hbad : ∃ fv ∈ data, safeJSONParse fv.2 = none) :
    ∃ e, handleNodesList args (some cfg) sel (.ok (some data)) now mparse
      = .thrown e := by
  obtain ⟨e, he⟩ := processNodes_error_of_unparseable args now mparse hargs data hbad
  exact ⟨e, by simp [handleNodesList, redisConnect_ok cfg hcfg sel, he]⟩

/-- Claim C10, witness: a single unparseable stored value makes `nodes list`
throw. -/
theorem nodesList_throws_on_unparseable_witness :
    ((["list"] : List String).length ≤ 2)
    ∧ (∃ fv ∈ [("i1", "not-json")], safeJSONParse fv.2 = none)
    ∧ ∃ e, handleNodesList ["list"] (some cfgObjEx) (.ok ())
        (.ok (some [("i1", "not-json")])) 0 mparseEx = .thrown e := by
  refine ⟨by decide, ⟨("i1", "not-json"), by simp, rfl⟩, ?_⟩
  exact nodesList_throws_on_unparseable ["list"] cfgObjEx (.ok ())
    [("i1", "not-json")] 0 mparseEx (by decide) cfgObjEx_ne_null
    ⟨("i1", "not-json"), by simp, rfl⟩
